import Mathlib

/-!
Verification of the PDF segmentation and metadata-extraction core
(`prism/pdf_loader.py`).

Strings are shallowly embedded as `List Char` (`Str`); Python's `str.lower`,
`str.strip`, `str.splitlines` and the `re` patterns appearing literally in the
source are compiled to executable Lean functions on `Str`.  Each regex literal
of the source becomes one Lean matcher whose semantics follows Python's
`re.match` (anchored at the start, partial match allowed unless the pattern
ends in `$`) or `re.search` (leftmost match).  ASCII semantics is assumed for
case folding, whitespace and word characters, and lines are split on `'\n'`
(the only line separator produced by the loader's `"\n".join`).
-/

namespace Prism

abbrev Str := List Char

def toL (s : String) : Str := s.toList

/-- Python `\s` (ASCII range). -/
def isSpaceC (c : Char) : Bool :=
  c = ' ' || c = '\t' || c = '\n' || c = '\r' || c = '\x0b' || c = '\x0c'

def isDigitC (c : Char) : Bool := '0' ≤ c && c ≤ '9'

def isUpperC (c : Char) : Bool := 'A' ≤ c && c ≤ 'Z'

def isAlphaC (c : Char) : Bool := ('a' ≤ c && c ≤ 'z') || ('A' ≤ c && c ≤ 'Z')

/-- Python `\w` (ASCII range). -/
def isWordC (c : Char) : Bool := isAlphaC c || isDigitC c || c = '_'

/-- Python `str.lower` (ASCII). -/
def lowerL (s : Str) : Str := s.map Char.toLower

/-- Python `str.strip()` (ASCII whitespace). -/
def pyStrip (s : Str) : Str :=
  ((s.dropWhile isSpaceC).reverse.dropWhile isSpaceC).reverse

/-- `"sep".join(xs)`. -/
def joinWith (sep : Str) : List Str → Str
  | [] => []
  | [x] => x
  | x :: y :: xs => x ++ sep ++ joinWith sep (y :: xs)

def joinNl : List Str → Str := joinWith ['\n']

def splitNlAux : Str → Str → List Str
  | [], acc => [acc.reverse]
  | c :: rest, acc =>
      if c = '\n' then acc.reverse :: splitNlAux rest []
      else splitNlAux rest (c :: acc)

/-- Python `str.splitlines` restricted to `'\n'` separators: the empty string
yields no lines and a trailing newline yields no extra empty line. -/
def splitNl (s : Str) : List Str :=
  match s with
  | [] => []
  | _ =>
    let parts := splitNlAux s []
    if s.getLast? = some '\n' then parts.dropLast else parts

/-- Drop a literal prefix (case sensitive). -/
def dropPref : Str → Str → Option Str
  | [], s => some s
  | _ :: _, [] => none
  | p :: ps, c :: cs => if c = p then dropPref ps cs else none

/-- Drop a literal prefix, comparing case-insensitively (the pattern is given
in lowercase). -/
def dropPrefCI : Str → Str → Option Str
  | [], s => some s
  | _ :: _, [] => none
  | p :: ps, c :: cs => if c.toLower = p then dropPrefCI ps cs else none

/-- Python `$` (without `re.MULTILINE`): end of string, or just before a final
newline. -/
def atEnd (s : Str) : Bool := s = [] || s = ['\n']

/-- `\b` between a known previous character and the rest of the input. -/
def wb (pre : Char) (s : Str) : Bool :=
  match s with
  | [] => isWordC pre
  | c :: _ => isWordC pre != isWordC c

/-- separator class `[\s–—-]` used by the abstract patterns. -/
def isSepC (c : Char) : Bool := isSpaceC c || c = '–' || c = '—' || c = '-'

/-! ### Abstract-heading patterns (pdf_loader.py lines 261-270) -/

/-- `^abstract[:\s]*$` -/
def patAbs1 (s : Str) : Bool :=
  match dropPref (toL "abstract") s with
  | some r => atEnd (r.dropWhile (fun c => c = ':' || isSpaceC c))
  | none => false

/-- `^abstract[\s–—-].+` -/
def patAbs2 (s : Str) : Bool :=
  match dropPref (toL "abstract") s with
  | some (c1 :: c2 :: _) => isSepC c1 && c2 ≠ '\n'
  | _ => false

/-- `^summary[:\s]*$` -/
def patSum1 (s : Str) : Bool :=
  match dropPref (toL "summary") s with
  | some r => atEnd (r.dropWhile (fun c => c = ':' || isSpaceC c))
  | none => false

/-- `^={2,}\s*abstract\s*={2,}$` -/
def patAbs4 (s : Str) : Bool :=
  if (s.takeWhile (fun c => c = '=')).length < 2 then false
  else
    match dropPref (toL "abstract")
            ((s.dropWhile (fun c => c = '=')).dropWhile isSpaceC) with
    | some r =>
      let r2 := r.dropWhile isSpaceC
      decide (2 ≤ (r2.takeWhile (fun c => c = '=')).length) &&
        atEnd (r2.dropWhile (fun c => c = '='))
    | none => false

/-- `.+$`: a nonempty run of non-newline characters reaching the end of the
string (or stopping just before a final newline). -/
def dotPlusEnd (s : Str) : Bool :=
  s.takeWhile (fun c => c ≠ '\n') ≠ [] && atEnd (s.dropWhile (fun c => c ≠ '\n'))

/-- `^abstract\s*[:\-–—]\s*.+$` -/
def patAbs5 (s : Str) : Bool :=
  match dropPref (toL "abstract") s with
  | some r =>
    match r.dropWhile isSpaceC with
    | c :: r2 =>
        (c = ':' || c = '-' || c = '–' || c = '—') && dotPlusEnd (r2.dropWhile isSpaceC)
    | [] => false
  | none => false

/-- `^summary\s*[:\-–—]\s*.+$` -/
def patSum5 (s : Str) : Bool :=
  match dropPref (toL "summary") s with
  | some r =>
    match r.dropWhile isSpaceC with
    | c :: r2 =>
        (c = ':' || c = '-' || c = '–' || c = '—') && dotPlusEnd (r2.dropWhile isSpaceC)
    | [] => false
  | none => false

/-- `^#+\s*abstract\s*$` -/
def patAbs7 (s : Str) : Bool :=
  match s with
  | '#' :: _ =>
    match dropPref (toL "abstract")
            ((s.dropWhile (fun c => c = '#')).dropWhile isSpaceC) with
    | some r => atEnd (r.dropWhile isSpaceC)
    | none => false
  | _ => false

/-- `^\*\*abstract\*\*$` -/
def patAbs8 (s : Str) : Bool :=
  match dropPref (toL "**abstract**") s with
  | some r => atEnd r
  | none => false

def abstractPats : List (Str → Bool) :=
  [patAbs1, patAbs2, patSum1, patAbs4, patAbs5, patSum5, patAbs7, patAbs8]

/-! ### Introduction-heading patterns (pdf_loader.py lines 275-283) -/

/-- common tail `\.?\s*introduction$` -/
def introTail (r : Str) : Bool :=
  let r2 := match r with
    | '.' :: r2 => r2
    | _ => r
  match dropPref (toL "introduction") (r2.dropWhile isSpaceC) with
  | some r3 => atEnd r3
  | none => false

/-- `^[0-9]+\.?\s*introduction$` -/
def patIntro1 (s : Str) : Bool :=
  s.takeWhile isDigitC ≠ [] && introTail (s.dropWhile isDigitC)

def isRomanC (c : Char) : Bool :=
  c = 'i' || c = 'v' || c = 'x' || c = 'l' || c = 'c' || c = 'd' || c = 'm'

/-- backtracking over a nonempty prefix of `run`: check the continuation after
consuming 1..run.length characters of the run. -/
def tryShrink (run rest : Str) (k : Str → Bool) : Bool :=
  match run with
  | [] => false
  | _ :: cs => k (cs ++ rest) || tryShrink cs rest k

/-- `^[ivxlcdm]+\.?\s*introduction$` -/
def patIntro2 (s : Str) : Bool :=
  tryShrink (s.takeWhile isRomanC) (s.dropWhile isRomanC) introTail

/-- `^section\s*[0-9]+[:\.]?\s*introduction$` -/
def patIntro3 (s : Str) : Bool :=
  match dropPref (toL "section") s with
  | some r =>
    let r2 := r.dropWhile isSpaceC
    if r2.takeWhile isDigitC = [] then false
    else
      let r3 := r2.dropWhile isDigitC
      let r4 := match r3 with
        | ':' :: t => t
        | '.' :: t => t
        | _ => r3
      match dropPref (toL "introduction") (r4.dropWhile isSpaceC) with
      | some r5 => atEnd r5
      | none => false
  | none => false

/-- `^introduction$` -/
def patIntro4 (s : Str) : Bool :=
  match dropPref (toL "introduction") s with
  | some r => atEnd r
  | none => false

/-- `^background$` -/
def patIntro5 (s : Str) : Bool :=
  match dropPref (toL "background") s with
  | some r => atEnd r
  | none => false

/-- `^={2,}\s*introduction\s*={2,}$` -/
def patIntro6 (s : Str) : Bool :=
  if (s.takeWhile (fun c => c = '=')).length < 2 then false
  else
    match dropPref (toL "introduction")
            ((s.dropWhile (fun c => c = '=')).dropWhile isSpaceC) with
    | some r =>
      let r2 := r.dropWhile isSpaceC
      decide (2 ≤ (r2.takeWhile (fun c => c = '=')).length) &&
        atEnd (r2.dropWhile (fun c => c = '='))
    | none => false

def introPats : List (Str → Bool) :=
  [patIntro1, patIntro2, patIntro3, patIntro4, patIntro5, patIntro6]

/-! ### End-matter patterns (pdf_loader.py lines 287-300) -/

/-- `^<word>$` for a literal word. -/
def patLitEnd (w : String) (s : Str) : Bool :=
  match dropPref (toL w) s with
  | some r => atEnd r
  | none => false

/-- `^<w1>\s+<w2>$` for two literal words. -/
def patTwoWords (w1 w2 : String) (s : Str) : Bool :=
  match dropPref (toL w1) s with
  | some (c :: r) =>
    if isSpaceC c then
      match dropPref (toL w2) ((c :: r).dropWhile isSpaceC) with
      | some r2 => atEnd r2
      | none => false
    else false
  | _ => false

/-- `^acknowledg(?:ements)?$` -/
def patAcknow (s : Str) : Bool :=
  match dropPref (toL "acknowledg") s with
  | some r =>
    atEnd r ||
      (match dropPref (toL "ements") r with
       | some r2 => atEnd r2
       | none => false)
  | none => false

/-- `^conflicts\s+of\s+interest$` -/
def patConflicts (s : Str) : Bool :=
  match dropPref (toL "conflicts") s with
  | some (c :: r) =>
    if isSpaceC c then
      match dropPref (toL "of") ((c :: r).dropWhile isSpaceC) with
      | some (c2 :: r2) =>
        if isSpaceC c2 then
          match dropPref (toL "interest") ((c2 :: r2).dropWhile isSpaceC) with
          | some r3 => atEnd r3
          | none => false
        else false
      | _ => false
    else false
  | _ => false

/-- `^={2,}\s*(references|bibliography|acknowledg|appendix|supplementary)\s*={2,}$` -/
def patEndEq (s : Str) : Bool :=
  if (s.takeWhile (fun c => c = '=')).length < 2 then false
  else
    let body := (s.dropWhile (fun c => c = '=')).dropWhile isSpaceC
    let tail := fun (r : Str) =>
      let r2 := r.dropWhile isSpaceC
      decide (2 ≤ (r2.takeWhile (fun c => c = '=')).length) &&
        atEnd (r2.dropWhile (fun c => c = '='))
    let alt := fun (w : String) =>
      match dropPref (toL w) body with
      | some r => tail r
      | none => false
    alt "references" || alt "bibliography" || alt "acknowledg" ||
      alt "appendix" || alt "supplementary"

def endPats : List (Str → Bool) :=
  [patLitEnd "references", patLitEnd "reference", patTwoWords "literature" "cited",
   patTwoWords "works" "cited", patLitEnd "bibliography", patAcknow,
   patLitEnd "appendix", patLitEnd "supplementary", patTwoWords "data" "availability",
   patConflicts, patLitEnd "funding", patEndEq]

/-! ### Keywords patterns (pdf_loader.py lines 83-90) -/

/-- `s?\b` after a literal whose last character is `last`: greedy optional `s`
followed by a word boundary. -/
def optSBdry (last : Char) (r : Str) : Bool :=
  match r with
  | 's' :: r2 => wb 's' r2 || wb last r
  | _ => wb last r

/-- `^keywords?\b` -/
def patKw1 (s : Str) : Bool :=
  match dropPref (toL "keyword") s with
  | some r => optSBdry 'd' r
  | none => false

/-- `^author\s+keywords?\b` -/
def patKw2 (s : Str) : Bool :=
  match dropPref (toL "author") s with
  | some (c :: r) =>
    if isSpaceC c then
      match dropPref (toL "keyword") ((c :: r).dropWhile isSpaceC) with
      | some r2 => optSBdry 'd' r2
      | none => false
    else false
  | _ => false

/-- `^key\s*words?\b` -/
def patKw3 (s : Str) : Bool :=
  match dropPref (toL "key") s with
  | some r =>
    match dropPref (toL "word") (r.dropWhile isSpaceC) with
    | some r2 => optSBdry 'd' r2
    | none => false
  | none => false

/-- `^index\s+terms?\b` -/
def patKw4 (s : Str) : Bool :=
  match dropPref (toL "index") s with
  | some (c :: r) =>
    if isSpaceC c then
      match dropPref (toL "term") ((c :: r).dropWhile isSpaceC) with
      | some r2 => optSBdry 'm' r2
      | none => false
    else false
  | _ => false

/-- `^<w1>\s+classification\b` -/
def patClassif (w1 : String) (s : Str) : Bool :=
  match dropPref (toL w1) s with
  | some (c :: r) =>
    if isSpaceC c then
      match dropPref (toL "classification") ((c :: r).dropWhile isSpaceC) with
      | some r2 => wb 'n' r2
      | none => false
    else false
  | _ => false

def keywordsPats : List (Str → Bool) :=
  [patKw1, patKw2, patKw3, patKw4, patClassif "jel", patClassif "msc"]

/-! ### "new numbered/roman/all-caps section" patterns (pdf_loader.py lines 97-101) -/

/-- common tail `\s*[\.)]?\s+[A-Z].*` after the leading token. -/
def numberedTail (t : Str) : Bool :=
  let t2 := t.dropWhile isSpaceC
  (t.takeWhile isSpaceC ≠ [] &&
     (match t2 with
      | c :: _ => isUpperC c
      | [] => false)) ||
  (match t2 with
   | p :: t3 =>
     (p = '.' || p = ')') &&
       (match t3 with
        | c :: _ =>
            isSpaceC c &&
              (match t3.dropWhile isSpaceC with
               | u :: _ => isUpperC u
               | [] => false)
        | [] => false)
   | [] => false)

/-- `^[0-9]+\s*[\.)]?\s+[A-Z].*` -/
def patNum1 (s : Str) : Bool :=
  s.takeWhile isDigitC ≠ [] && numberedTail (s.dropWhile isDigitC)

/-- `^(?:[ivxlcdm]+)\s*[\.)]?\s+[A-Z].*` -/
def patNum2 (s : Str) : Bool :=
  tryShrink (s.takeWhile isRomanC) (s.dropWhile isRomanC) numberedTail

/-- `^[A-Z][A-Z\s]{3,}$` -/
def patNum3 (s : Str) : Bool :=
  match s with
  | u :: rest =>
      isUpperC u && decide (3 ≤ rest.length) &&
        rest.all (fun c => isUpperC c || isSpaceC c)
  | [] => false

def numberedPats : List (Str → Bool) := [patNum1, patNum2, patNum3]

/-! ### find_index (pdf_loader.py lines 52-59) -/

/-- `re.sub(r"[=\s]+", "", ·)`: remove every whitespace and `=` character. -/
def simplifyL (s : Str) : Str := s.filter (fun c => !(isSpaceC c || c = '='))

/-- One line of the inner loop of `find_index`: some pattern matches the
lowercased line or its simplified form. -/
def lineHit (pats : List (Str → Bool)) (ln : Str) : Bool :=
  pats.any (fun p => p (lowerL ln) || p (simplifyL (lowerL ln)))

/-- `find_index(patterns, lines)`: index of the first line whose lowercased or
simplified-lowercased form matches some pattern. -/
def find_index (pats : List (Str → Bool)) : List Str → Option Nat
  | [] => none
  | l :: ls =>
    if lineHit pats l then some 0 else (find_index pats ls).map (· + 1)

/-- Modelled from the claim C3's wording: the first line whose *raw* form or
whose normalized (lowercased, whitespace/`=`-collapsed) form matches some
pattern.  Differs from the source's `find_index`, which lowercases the line
before the raw-form match. -/
def lineHitClaim (pats : List (Str → Bool)) (ln : Str) : Bool :=
  pats.any (fun p => p ln || p (simplifyL (lowerL ln)))

/-- Modelled from the claim C3's wording; see `lineHitClaim`. -/
def find_index_claim (pats : List (Str → Bool)) : List Str → Option Nat
  | [] => none
  | l :: ls =>
    if lineHitClaim pats l then some 0 else (find_index_claim pats ls).map (· + 1)

/-! ### extract_sections (pdf_loader.py lines 72-121) -/

/-- Python `xs[a:b]` for `0 ≤ a ≤ b` (clamping at the list length). -/
def sliceL (s : List α) (a b : Nat) : List α := (s.drop a).take (b - a)

/-- `first_break` (line 74): `min(i for i in (abstract_idx, intro_idx) if i is
not None)`, absent when both indices are absent. -/
def firstBreak : Option Nat → Option Nat → Option Nat
  | none, none => none
  | some a, none => some a
  | none, some i => some i
  | some a, some i => some (min a i)

/-- `pre_intro` (lines 73-77): everything before the earlier present boundary,
else the first 50 lines. -/
def preOf (stripped : List Str) (aIdx iIdx : Option Nat) : List Str :=
  match firstBreak aIdx iIdx with
  | some m => stripped.take m
  | none => stripped.take 50

/-- `_first_after` (lines 79-81). -/
def firstAfter (stripped : List Str) (start : Nat) (pats : List (Str → Bool)) :
    Option Nat :=
  (find_index pats (stripped.drop (start + 1))).map (fun j => start + 1 + j)

/-- `kw_after` (line 94). -/
def kwAfterIdx (kwIdx : Option Nat) (a : Nat) : Option Nat :=
  match kwIdx with
  | some k => if a < k then some k else none
  | none => none

/-- `intro_after` (line 95). -/
def introAfterIdx (iIdx : Option Nat) (a : Nat) : Option Nat :=
  match iIdx with
  | some i => if a < i then some i else none
  | none => none

/-- `numbered_after` (lines 97-101): the last-resort scan, consulted only when
both `kw_after` and `intro_after` are absent. -/
def numberedAfterIdx (stripped : List Str) (a : Nat) (kwA inA : Option Nat) :
    Option Nat :=
  match kwA, inA with
  | none, none => firstAfter stripped a numberedPats
  | _, _ => none

/-- `abs_end` (lines 103-104): minimum of the present candidates and the
document end. -/
def absEndIdx (stripped : List Str) (a : Nat) (iIdx : Option Nat) : Nat :=
  let kwA := kwAfterIdx (find_index keywordsPats stripped) a
  let inA := introAfterIdx iIdx a
  let nbA := numberedAfterIdx stripped a kwA inA
  ([kwA, inA, nbA].filterMap id).foldr min stripped.length

/-- `.` of the inline regex: any character but a newline. -/
def neNl (c : Char) : Bool := c != '\n'

/-- inline regex `(?i)abstract(?:[\s–—-]+)(.*)` (line 107): group 1 when the
heading line matches. -/
def inlineAbstract (header : Str) : Option Str :=
  match dropPrefCI (toL "abstract") header with
  | some r =>
    match r with
    | c :: _ =>
        if isSepC c then some ((r.dropWhile isSepC).takeWhile neNl)
        else none
    | [] => none
  | none => none

/-- `abstract` (lines 92-115). -/
def absOf (stripped : List Str) (aIdx iIdx : Option Nat) : List Str :=
  match aIdx with
  | some a =>
    let ae := absEndIdx stripped a iIdx
    match inlineAbstract (stripped.getD a []) with
    | some tail => pyStrip tail :: sliceL stripped (a + 1) ae
    | none => sliceL stripped (a + 1) ae
  | none =>
    match iIdx with
    | some i => if 5 < i then stripped.take i else []
    | none => []

/-- `main_body` (lines 117-119). -/
def bodyOf (stripped : List Str) (aIdx iIdx eIdx : Option Nat) : List Str :=
  let bodyStart := match iIdx with
    | some i => i
    | none => match aIdx with
      | some a => a + 1
      | none => 0
  let bodyEnd := match eIdx with
    | some e => e
    | none => stripped.length
  sliceL stripped bodyStart bodyEnd

/-- `end_matter` (line 120). -/
def endOf (stripped : List Str) (eIdx : Option Nat) : List Str :=
  match eIdx with
  | some e => stripped.drop (e + 1)
  | none => []

structure Sections where
  pre_intro : List Str
  abstract : List Str
  main_body : List Str
  end_matter : List Str
  deriving DecidableEq

/-- `extract_sections(stripped, abstract_idx, intro_idx, end_idx)`. -/
def extract_sections (stripped : List Str) (aIdx iIdx eIdx : Option Nat) :
    Sections :=
  { pre_intro := preOf stripped aIdx iIdx
    abstract := absOf stripped aIdx iIdx
    main_body := bodyOf stripped aIdx iIdx eIdx
    end_matter := endOf stripped eIdx }

/-! ### The document model (a `fitz.Document` as consumed by the loader) -/

/-- The parts of an opened PDF document the loader reads: per-page text, the
`creationDate`/`modDate` metadata properties (empty string when absent, as
`metadata.get(key, "")` yields), and the first page's link `uri` values
(empty string when a link has no `uri`). -/
structure Document where
  pages : List Str
  creationDate : Str
  modDate : Str
  links : List Str
  deriving DecidableEq

/-- `extract_text_and_lines` (lines 37-42). -/
def extract_text_and_lines (pages : List Str) : Str × List Str :=
  let full_text := joinNl pages
  (full_text, (splitNl full_text).map pyStrip)

/-! ### extract_metadata (pdf_loader.py lines 130-235) -/

/-- leftmost `re.search` for a pattern given as a per-position matcher. -/
def scanFirst (f : Str → Option α) : Str → Option α
  | [] => f []
  | c :: rest =>
    match f (c :: rest) with
    | some r => some r
    | none => scanFirst f rest

/-- `(20\d{2}|19\d{2})` at one position. -/
def yearAt (s : Str) : Option Str :=
  match s with
  | c1 :: c2 :: c3 :: c4 :: _ =>
    if ((c1 = '2' && c2 = '0') || (c1 = '1' && c2 = '9')) && isDigitC c3 && isDigitC c4
    then some [c1, c2, c3, c4] else none
  | _ => none

/-- `re.search(r"(20\d{2}|19\d{2})", ·)` (line 140). -/
def searchYear : Str → Option Str := scanFirst yearAt

/-- Year-detection loop over `("creationDate", "modDate")` (lines 137-143):
skip empty values; stop at the first value containing a year. -/
def yearFromVals : List Str → List Str
  | [] => []
  | v :: rest =>
    if v = [] then yearFromVals rest
    else
      match searchYear v with
      | some y => [toL "Detected Publication Year: " ++ y]
      | none => yearFromVals rest

/-- character class `[A-Za-z &()\.\-]` of the outlet regex. -/
def isOutletC (c : Char) : Bool :=
  isAlphaC c || c = ' ' || c = '&' || c = '(' || c = ')' || c = '.' || c = '-'

/-- `(?i)publication in ([A-Za-z &()\.\-]+)` at one position; yields group 1. -/
def outletAt (s : Str) : Option Str :=
  match dropPrefCI (toL "publication in ") s with
  | some r =>
    let run := r.takeWhile isOutletC
    if run = [] then none else some run
  | none => none

/-- `re.search` for the outlet pattern (line 175). -/
def outletSearch : Str → Option Str := scanFirst outletAt

/-- character class `[-._;()/:A-Za-z0-9]` of the DOI regex. -/
def isDoiC (c : Char) : Bool :=
  c = '-' || c = '.' || c = '_' || c = ';' || c = '(' || c = ')' || c = '/' ||
    c = ':' || isAlphaC c || isDigitC c

/-- trailing `\b` of the DOI regex: backtrack the greedy suffix run to the
longest nonempty prefix ending at a word boundary.  `revRun` is the reversed
run; `next` is the input that follows the point under test. -/
def doiTrailRev : Str → Str → Option Str
  | [], _ => none
  | last :: revRest, next =>
    if wb last next then some ((last :: revRest).reverse)
    else doiTrailRev revRest (last :: next)

/-- `\b10\.\d{4,9}/[-._;()/:A-Za-z0-9]+\b` at one position (`prev` is the
character before that position, if any). -/
def doiAt (prev : Option Char) (s : Str) : Option Str :=
  if (match prev with
      | some p => isWordC p
      | none => false) then none
  else
    match dropPref (toL "10.") s with
    | some r =>
      let ds := r.takeWhile isDigitC
      if ds.length < 4 || 9 < ds.length then none
      else
        match r.dropWhile isDigitC with
        | '/' :: r3 =>
          match doiTrailRev (r3.takeWhile isDoiC).reverse (r3.dropWhile isDoiC) with
          | some kept => some (toL "10." ++ ds ++ '/' :: kept)
          | none => none
        | _ => none
    | none => none

def doiScanAux : Option Char → Str → Option Str
  | _, [] => none
  | prev, c :: rest =>
    match doiAt prev (c :: rest) with
    | some m => some m
    | none => doiScanAux (some c) rest

/-- `re.search` for the DOI pattern (line 189). -/
def doiSearch (s : Str) : Option Str := doiScanAux none s

/-- `(?i)arxiv[:\s]*(\d{4}\.\d{4,5}(?:v\d+)?)` at one position; yields
group 1. -/
def arxivAt (s : Str) : Option Str :=
  match dropPrefCI (toL "arxiv") s with
  | some r =>
    let r2 := r.dropWhile (fun c => c = ':' || isSpaceC c)
    if (r2.takeWhile isDigitC).length < 4 then none
    else
      match r2.drop 4 with
      | '.' :: r3 =>
        let d2 := r3.takeWhile isDigitC
        if d2.length < 4 then none
        else
          let k2 := min d2.length 5
          let vpart := match r3.drop k2 with
            | c :: r5 =>
              if c = 'v' || c = 'V' then
                let vd := r5.takeWhile isDigitC
                if vd = [] then [] else c :: vd
              else []
            | [] => []
          some (r2.take 4 ++ '.' :: (r3.take k2 ++ vpart))
      | _ => none
  | none => none

/-- `re.search` for the arXiv pattern (line 196). -/
def arxivSearch : Str → Option Str := scanFirst arxivAt

/-- `license_markers` (lines 207-219). -/
def licenseMarkers : List Str :=
  [toL "creative commons", toL "cc by", toL "cc-by", toL "open access article",
   toL "open-access article", toL "open access",
   toL "distributed under the terms of the",
   toL "this is an open access article", toL "open access funded",
   toL "public domain", toL "u.s. government work"]

/-- `id_chunks` (lines 149-167): pre-intro text, first-page text, first-page
link targets. -/
def idChunks (doc : Document) (pre_intro : List Str) : List Str :=
  (if pre_intro = [] then [] else [joinNl pre_intro]) ++
    (match doc.pages with
     | [] => []
     | p0 :: _ => p0 :: (doc.links.map pyStrip).filter (fun u => u ≠ []))

/-- `id_text` (line 169): the safe zone for identifier search. -/
def idTextOf (doc : Document) (pre_intro : List Str) : Str :=
  joinNl (idChunks doc pre_intro)

/-- Outlet metadata lines (lines 175-177). -/
def outletLines (pre_intro : List Str) : List Str :=
  match outletSearch (joinNl pre_intro) with
  | some g => [toL "Detected Publication Outlet: " ++ pyStrip g]
  | none => []

/-- DOI metadata lines (lines 189-193). -/
def doiLines (doc : Document) (pre_intro : List Str) : List Str :=
  match doiSearch (idTextOf doc pre_intro) with
  | some d =>
    [toL "Detected DOI: " ++ d, toL "Detected DOI URL: https://doi.org/" ++ d]
  | none => []

/-- arXiv metadata lines (lines 196-202). -/
def arxivLines (doc : Document) (pre_intro : List Str) : List Str :=
  match arxivSearch (idTextOf doc pre_intro) with
  | some a =>
    [toL "Detected arXiv ID: " ++ a,
     toL "Detected arXiv URL: https://arxiv.org/abs/" ++ a]
  | none => [toL "No arXiv ID detected."]

/-- `meta_lines` just before the open-access line is appended (lines 131-202). -/
def metaPre4 (doc : Document) (pre_intro : List Str) : List Str :=
  yearFromVals [doc.creationDate, doc.modDate] ++ outletLines pre_intro ++
    doiLines doc pre_intro ++ arxivLines doc pre_intro

/-- Python's substring test `pat in s`. -/
def containsSub (pat : Str) : Str → Bool
  | [] => pat.isPrefixOf []
  | c :: rest => pat.isPrefixOf (c :: rest) || containsSub pat rest

/-- License-marker scan over `"\n".join(pre_intro) + "\n" + full_text`
(lines 204-225). -/
def markersHit (full_text : Str) (pre_intro : List Str) : Bool :=
  licenseMarkers.any
    (fun m => containsSub m (lowerL (joinNl pre_intro ++ '\n' :: full_text)))

/-- arXiv-outlet override check (line 227). -/
def arxivOutletHit (doc : Document) (pre_intro : List Str) : Bool :=
  (metaPre4 doc pre_intro).any
    (fun l => containsSub (toL "Detected Publication Outlet: arXiv") l)

/-- `open_access` (lines 221-229). -/
def openAccessFlag (doc : Document) (full_text : Str) (pre_intro : List Str) :
    Bool :=
  markersHit full_text pre_intro || arxivOutletHit doc pre_intro

/-- Final open-access line (line 230). -/
def oaLineOf (doc : Document) (full_text : Str) (pre_intro : List Str) : Str :=
  toL "Detected Open Access: " ++
    (if openAccessFlag doc full_text pre_intro then toL "Yes" else toL "No")

/-- All `meta_lines` of `extract_metadata`. -/
def metaLines (doc : Document) (full_text : Str) (pre_intro : List Str) :
    List Str :=
  metaPre4 doc pre_intro ++ [oaLineOf doc full_text pre_intro]

/-- `extract_metadata(doc, full_text, pre_intro)` (line 235):
`"\n".join(meta_lines) + "\n" if meta_lines else ""`. -/
def extract_metadata (doc : Document) (full_text : Str) (pre_intro : List Str) :
    Str :=
  let ls := metaLines doc full_text pre_intro
  if ls = [] then [] else joinNl ls ++ ['\n']

/-! ### extract_text_from_attachment (pdf_loader.py lines 245-325) -/

structure PipelineOut where
  pre_intro : Str
  abstract : Str
  main_body : Str
  end_matter : Str
  full_text : Str
  deriving DecidableEq

/-- The `try` body of `extract_text_from_attachment` (lines 258-323). -/
def processDocument (doc : Document) : PipelineOut :=
  let tl := extract_text_and_lines doc.pages
  let full_text := tl.1
  let stripped := tl.2
  let aIdx := find_index abstractPats stripped
  let iIdx := find_index introPats stripped
  let eIdx := find_index endPats stripped
  let secs := extract_sections stripped aIdx iIdx eIdx
  let meta_block := extract_metadata doc full_text secs.pre_intro
  let preSec := pyStrip (meta_block ++ joinNl secs.pre_intro)
  { pre_intro := if preSec = [] then full_text else preSec
    abstract :=
      pyStrip (joinWith [' '] ((secs.abstract.map pyStrip).filter (fun l => l ≠ [])))
    main_body := pyStrip (joinNl secs.main_body)
    end_matter := pyStrip (joinNl secs.end_matter)
    full_text := full_text }

/-- The acquire/`try`/`finally` structure of `extract_text_from_attachment`
(lines 245-325), with the document body abstracted as a fallible computation:
on a successful open the body runs and the handle is closed (counted by the
second component) whether the body succeeds or raises; a raising body's error
propagates after the close. -/
def runWithDoc {E A : Type} (openR : Except E Document)
    (body : Document → Except E A) : Except E A × Nat :=
  match openR with
  | .error e => (.error e, 0)
  | .ok d => (body d, 1)

/-- `extract_text_from_attachment` given the result of resolving/opening the
attachment: the full pipeline run under the scoped-close discipline. -/
def extract_text_from_attachment {E : Type} (openR : Except E Document) :
    Except E PipelineOut × Nat :=
  runWithDoc openR (fun d => .ok (processDocument d))

/-! ### Concrete example inputs -/

/-- A document with no pages, no metadata properties and no links. -/
def emptyDoc : Document := ⟨[], [], [], []⟩

/-- The seven-line scenario of the specification (§8). -/
def exScenario : List Str :=
  [toL "Abstract", toL "Line one", toL "Line two", toL "Introduction",
   toL "Body text", toL "References", toL "Cite 1"]

/-- An abstract heading with colon-separated inline text. -/
def exColon : List Str := [toL "Abstract: Overview text", toL "More text"]

/-- An abstract heading with dash-separated inline text. -/
def exInline : List Str := [toL "Abstract — Great results", toL "Body"]

/-- Lines with a keywords boundary after the abstract heading. -/
def exKwLines : List Str :=
  [toL "Abstract", toL "text", toL "Keywords: ml", toL "more"]

/-- A single-page document whose DOI-shaped string appears only after its
`References` heading. -/
def refDoc : Document :=
  ⟨[toL "Introduction\nbody\nReferences\nsee 10.1234/abc.567"], [], [], []⟩

/-- A single-page document carrying a DOI on its first page. -/
def doiDoc : Document := ⟨[toL "paper 10.1234/abc.567 text"], [], [], []⟩

/-- Full text whose only open-access signal sits after the References
heading. -/
def ccText : Str := toL "Intro text\nReferences\nCreative Commons Attribution"

/-- Two lines whose second line is an abstract heading. -/
def exSecondHit : List Str := [toL "x", toL "Abstract"]

/-- A case-sensitive matcher for the raw-form reading of claim C3 (the regex
`^A`). -/
def rawPat : Str → Bool := fun l => (toL "A").isPrefixOf l

/-- A line whose raw form starts with an uppercase letter. -/
def exRawLines : List Str := [toL "Abc"]

/-! ## Helper lemmas -/

theorem mem_joinWith (sep : Str) :
    ∀ (L : List Str) (s : Str), s ∈ L → ∀ c, c ∈ s → c ∈ joinWith sep L := by
  intro L
  induction L with
  | nil => intro s hs; cases hs
  | cons x xs ih =>
    intro s hs c hc
    cases xs with
    | nil =>
      rw [List.mem_singleton] at hs
      subst hs
      simpa [joinWith] using hc
    | cons y ys =>
      simp only [joinWith]
      rcases List.mem_cons.mp hs with rfl | h2
      · exact List.mem_append_left _ (List.mem_append_left _ hc)
      · exact List.mem_append_right _ (ih s h2 c hc)

theorem mem_dropWhile_of_not (p : Char → Bool) :
    ∀ (l : Str) (c : Char), c ∈ l → p c = false → c ∈ l.dropWhile p := by
  intro l
  induction l with
  | nil => intro c hc; cases hc
  | cons a l ih =>
    intro c hc hpc
    cases hpa : p a with
    | true =>
      rw [List.dropWhile_cons_of_pos hpa]
      rcases List.mem_cons.mp hc with rfl | h2
      · rw [hpa] at hpc; cases hpc
      · exact ih c h2 hpc
    | false =>
      rw [List.dropWhile_cons_of_neg (by simp [hpa])]
      exact hc

theorem pyStrip_ne_nil (l : Str) (c : Char) (hc : c ∈ l)
    (hw : isSpaceC c = false) : pyStrip l ≠ [] := by
  intro h
  unfold pyStrip at h
  have h1 : (l.dropWhile isSpaceC).reverse.dropWhile isSpaceC = [] := by
    rwa [List.reverse_eq_nil_iff] at h
  have h3 : c ∈ l.dropWhile isSpaceC := mem_dropWhile_of_not _ l c hc hw
  have h2 := List.dropWhile_eq_nil_iff.mp h1 c (List.mem_reverse.mpr h3)
  rw [hw] at h2
  cases h2

theorem foldr_min_le (l : List Nat) (n : Nat) :
    l.foldr min n ≤ n ∧ ∀ x ∈ l, l.foldr min n ≤ x := by
  induction l with
  | nil => exact ⟨Nat.le_refl _, by intro x hx; cases hx⟩
  | cons a l ih =>
    refine ⟨?_, ?_⟩
    · exact Nat.le_trans (Nat.min_le_right _ _) ih.1
    · intro x hx
      rcases List.mem_cons.mp hx with rfl | h2
      · exact Nat.min_le_left _ _
      · exact Nat.le_trans (Nat.min_le_right _ _) (ih.2 x h2)

theorem foldr_min_mem (l : List Nat) (n : Nat) :
    l.foldr min n = n ∨ l.foldr min n ∈ l := by
  induction l with
  | nil => exact Or.inl rfl
  | cons a l ih =>
    rcases Nat.le_total a (l.foldr min n) with h | h
    · right
      rw [List.foldr_cons, Nat.min_eq_left h]
      exact List.mem_cons_self _ _
    · rw [List.foldr_cons, Nat.min_eq_right h]
      rcases ih with h2 | h2
      · exact Or.inl h2
      · exact Or.inr (List.mem_cons_of_mem _ h2)

/-! ## Claim theorems -/

/-- C6: when neither the abstract nor the introduction boundary is found, the
`pre_intro` zone is exactly the first 50 lines (all lines when fewer exist);
when either is found, it is every line strictly before the earlier present
index. -/
theorem pre_intro_fallback_fifty :
    (∀ (s : List Str) (e : Option Nat),
        (extract_sections s none none e).pre_intro = s.take 50) ∧
    (∀ (s : List Str) (a i e : Option Nat) (m : Nat),
        firstBreak a i = some m →
        (extract_sections s a i e).pre_intro = s.take m) := by
  constructor
  · intro s e; rfl
  · intro s a i e m hm
    show preOf s a i = s.take m
    unfold preOf
    rw [hm]

/-- C6 witness at a concrete input. -/
theorem pre_intro_fallback_witness :
    (extract_sections exScenario (some 2) (some 5) none).pre_intro =
      exScenario.take 2 :=
  pre_intro_fallback_fifty.2 exScenario (some 2) (some 5) none 2 (by decide)

/-- C8: an empty document (no pages) flows through the pipeline without
failure: the full text and line sequence are empty, no boundary is found, all
four zones are empty, and the metadata block consists of exactly the
arXiv-absence line and the open-access line, ending in a newline. -/
theorem empty_document_pipeline :
    extract_text_and_lines emptyDoc.pages = ([], []) ∧
    find_index abstractPats [] = none ∧
    find_index introPats [] = none ∧
    find_index endPats [] = none ∧
    extract_sections [] none none none = ⟨[], [], [], []⟩ ∧
    metaLines emptyDoc [] [] =
      [toL "No arXiv ID detected.", toL "Detected Open Access: No"] ∧
    extract_metadata emptyDoc [] [] =
      toL "No arXiv ID detected.\nDetected Open Access: No\n" ∧
    (processDocument emptyDoc).abstract = [] ∧
    (processDocument emptyDoc).main_body = [] ∧
    (processDocument emptyDoc).end_matter = [] ∧
    (processDocument emptyDoc).full_text = [] := by
  decide

/-- C9: whenever the document handle is opened successfully, it is closed
exactly once, whether the body returns or raises, and a raising body's error
propagates to the caller. -/
theorem handle_closed_exactly_once {E A : Type} (openR : Except E Document)
    (body : Document → Except E A) (d : Document) (h : openR = .ok d) :
    (runWithDoc openR body).2 = 1 ∧
    (runWithDoc openR body).1 = body d ∧
    (∀ err, body d = .error err → (runWithDoc openR body).1 = .error err) := by
  subst h
  refine ⟨rfl, rfl, ?_⟩
  intro err he
  simpa [runWithDoc] using he

/-- C9 witness: a body that raises still leads to exactly one close, and the
error propagates. -/
theorem handle_closed_witness :
    (runWithDoc (Except.ok emptyDoc)
        (fun _ => (Except.error "stage failure" : Except String Unit))).2 = 1 ∧
    (runWithDoc (Except.ok emptyDoc)
        (fun _ => (Except.error "stage failure" : Except String Unit))).1 =
      Except.error "stage failure" := by
  have h := handle_closed_exactly_once (Except.ok emptyDoc)
    (fun _ => (Except.error "stage failure" : Except String Unit)) emptyDoc rfl
  exact ⟨h.1, h.2.1⟩

/-- C10: the metadata block always ends with the open-access line, so the
`pre_intro` section string is non-empty for every document and every argument
combination — the `full_text` fallback guarded by an empty `pre_intro`
section is never taken. -/
theorem pre_intro_section_nonempty :
    (∀ (d : Document) (ft : Str) (pre : List Str),
        pyStrip (extract_metadata d ft pre ++ joinNl pre) ≠ []) ∧
    ∀ d : Document, (processDocument d).pre_intro ≠ [] := by
  have main : ∀ (d : Document) (ft : Str) (pre : List Str),
      pyStrip (extract_metadata d ft pre ++ joinNl pre) ≠ [] := by
    intro d ft pre
    have hD : 'D' ∈ oaLineOf d ft pre := List.mem_append_left _ (by decide)
    have hoa : oaLineOf d ft pre ∈ metaLines d ft pre :=
      List.mem_append_right _ (List.mem_singleton.mpr rfl)
    have hne : metaLines d ft pre ≠ [] := List.ne_nil_of_mem hoa
    have hJ : 'D' ∈ joinNl (metaLines d ft pre) :=
      mem_joinWith _ _ _ hoa _ hD
    have hblock : extract_metadata d ft pre =
        joinNl (metaLines d ft pre) ++ ['\n'] := by
      simp only [extract_metadata]
      rw [if_neg hne]
    apply pyStrip_ne_nil _ 'D'
    · rw [hblock, List.append_assoc]
      exact List.mem_append_left _ hJ
    · decide
  refine ⟨main, ?_⟩
  intro d
  have h := main d (extract_text_and_lines d.pages).1
    (extract_sections (extract_text_and_lines d.pages).2
      (find_index abstractPats (extract_text_and_lines d.pages).2)
      (find_index introPats (extract_text_and_lines d.pages).2)
      (find_index endPats (extract_text_and_lines d.pages).2)).pre_intro
  simp only [processDocument]
  rw [if_neg h]
  exact h

/-- C5: the license scan covers the concatenation of `pre_intro` and the full
text; any marker hit yields the `Detected Open Access: Yes` line, and with no
marker hit and no detected arXiv outlet the block carries the
`Detected Open Access: No` line. -/
theorem open_access_full_scan (d : Document) (ft : Str) (pre : List Str) :
    (markersHit ft pre = true →
       toL "Detected Open Access: Yes" ∈ metaLines d ft pre) ∧
    (markersHit ft pre = false → arxivOutletHit d pre = false →
       toL "Detected Open Access: No" ∈ metaLines d ft pre) := by
  constructor
  · intro h
    have hoa : oaLineOf d ft pre = toL "Detected Open Access: Yes" := by
      unfold oaLineOf openAccessFlag
      rw [h, Bool.true_or, if_pos rfl]
      decide
    rw [← hoa]
    exact List.mem_append_right _ (List.mem_singleton.mpr rfl)
  · intro h1 h2
    have hoa : oaLineOf d ft pre = toL "Detected Open Access: No" := by
      unfold oaLineOf openAccessFlag
      rw [h1, h2, Bool.false_or, if_neg (by simp)]
      decide
    rw [← hoa]
    exact List.mem_append_right _ (List.mem_singleton.mpr rfl)

/-- C5 witness: a document whose only open-access signal sits after its
References heading still gets the `Yes` line. -/
theorem open_access_full_scan_witness :
    toL "Detected Open Access: Yes" ∈ metaLines emptyDoc ccText [] :=
  (open_access_full_scan emptyDoc ccText []).1 (by decide)

/-- C7: the numbered/roman/all-caps scan contributes a candidate for the
abstract's end only when neither a keywords boundary nor an introduction
boundary after the abstract index was found (a last-resort scan), and the
abstract end is the minimum of the present candidates and the document
end. -/
theorem numbered_scan_last_resort (stripped : List Str) (a : Nat)
    (iIdx : Option Nat) :
    ((kwAfterIdx (find_index keywordsPats stripped) a ≠ none ∨
        introAfterIdx iIdx a ≠ none) →
      numberedAfterIdx stripped a (kwAfterIdx (find_index keywordsPats stripped) a)
        (introAfterIdx iIdx a) = none) ∧
    ((kwAfterIdx (find_index keywordsPats stripped) a = none ∧
        introAfterIdx iIdx a = none) →
      numberedAfterIdx stripped a (kwAfterIdx (find_index keywordsPats stripped) a)
        (introAfterIdx iIdx a) = firstAfter stripped a numberedPats) ∧
    absEndIdx stripped a iIdx ≤ stripped.length ∧
    (∀ c ∈ ([kwAfterIdx (find_index keywordsPats stripped) a, introAfterIdx iIdx a,
        numberedAfterIdx stripped a (kwAfterIdx (find_index keywordsPats stripped) a)
          (introAfterIdx iIdx a)].filterMap id),
      absEndIdx stripped a iIdx ≤ c) ∧
    (absEndIdx stripped a iIdx = stripped.length ∨
      absEndIdx stripped a iIdx ∈
        ([kwAfterIdx (find_index keywordsPats stripped) a, introAfterIdx iIdx a,
          numberedAfterIdx stripped a (kwAfterIdx (find_index keywordsPats stripped) a)
            (introAfterIdx iIdx a)].filterMap id)) := by
  refine ⟨?_, ?_, ?_, ?_, ?_⟩
  · intro h
    unfold numberedAfterIdx
    rcases hk : kwAfterIdx (find_index keywordsPats stripped) a with _ | k <;>
      rcases hi : introAfterIdx iIdx a with _ | i
    · rw [hk, hi] at h; simp at h
    · rfl
    · rfl
    · rfl
  · intro h
    unfold numberedAfterIdx
    rw [h.1, h.2]
  · exact (foldr_min_le _ _).1
  · exact (foldr_min_le _ _).2
  · exact foldr_min_mem _ _

/-- C7 witness: with a keywords boundary after the abstract index, the
numbered scan is skipped and the abstract end is the keywords index. -/
theorem numbered_scan_last_resort_witness :
    numberedAfterIdx exKwLines 0 (kwAfterIdx (find_index keywordsPats exKwLines) 0)
      (introAfterIdx none 0) = none ∧
    absEndIdx exKwLines 0 none = 2 := by
  have h := numbered_scan_last_resort exKwLines 0 none
  refine ⟨h.1 (Or.inl (by decide)), by decide⟩

/-- C3 counterexample: `find_index` matches the lowercased line, not the raw
line; a pattern matching only an uppercase start finds the raw form but the
source function reports no match. -/
theorem find_index_raw_form_cex :
    find_index_claim [rawPat] exRawLines = some 0 ∧
    find_index [rawPat] exRawLines = none := by
  decide

/-- C3 (amended): `find_index` returns the index of the first line, in
document order, whose lowercased or normalized (lowercased and
whitespace/`=`-collapsed) form matches any pattern, `none` when no line
matches; line order dominates pattern priority. -/
theorem find_index_first_match (pats : List (Str → Bool)) (lines : List Str) :
    (∀ i, find_index pats lines = some i ↔
       ((∃ l, lines[i]? = some l ∧ lineHit pats l = true) ∧
        ∀ j, j < i → ∀ l, lines[j]? = some l → lineHit pats l = false)) ∧
    (find_index pats lines = none ↔
       ∀ (i : Nat) (l : Str), lines[i]? = some l → lineHit pats l = false) := by
  induction lines with
  | nil =>
    constructor
    · intro i
      simp [find_index]
    · simp [find_index]
  | cons x xs ih =>
    obtain ⟨ihs, ihn⟩ := ih
    have hfi : find_index pats (x :: xs) =
        if lineHit pats x then some 0 else (find_index pats xs).map (· + 1) := rfl
    cases h : lineHit pats x with
    | true =>
      rw [hfi, if_pos h]
      constructor
      · intro i
        constructor
        · intro he
          obtain rfl : 0 = i := Option.some.inj he
          refine ⟨⟨x, by simp, h⟩, ?_⟩
          intro j hj
          exact absurd hj (Nat.not_lt_zero j)
        · rintro ⟨-, hall⟩
          cases i with
          | zero => rfl
          | succ k =>
            exact absurd h (by simpa using hall 0 (Nat.succ_pos k) x (by simp))
      · constructor
        · intro he
          simp at he
        · intro hall
          exact absurd h (by simpa using hall 0 x (by simp))
    | false =>
      rw [hfi, if_neg (by simp [h])]
      constructor
      · intro i
        cases i with
        | zero =>
          constructor
          · intro he
            rcases Option.map_eq_some'.mp he with ⟨k, -, hk⟩
            omega
          · rintro ⟨⟨l, hl, hhit⟩, -⟩
            simp only [List.getElem?_cons_zero, Option.some.injEq] at hl
            subst hl
            rw [h] at hhit
            cases hhit
        | succ k =>
          rw [Option.map_eq_some']
          constructor
          · rintro ⟨a, ha, hak⟩
            obtain rfl : a = k := by omega
            rcases (ihs a).mp ha with ⟨⟨l, hl, hhit⟩, hall⟩
            refine ⟨⟨l, by simpa using hl, hhit⟩, ?_⟩
            intro j hj l2 hl2
            cases j with
            | zero =>
              simp only [List.getElem?_cons_zero, Option.some.injEq] at hl2
              subst hl2
              exact h
            | succ m =>
              exact hall m (by omega) l2 (by simpa using hl2)
          · rintro ⟨⟨l, hl, hhit⟩, hall⟩
            refine ⟨k, ?_, rfl⟩
            apply (ihs k).mpr
            refine ⟨⟨l, by simpa using hl, hhit⟩, ?_⟩
            intro m hm l2 hl2
            exact hall (m + 1) (by omega) l2 (by simpa using hl2)
      · rw [Option.map_eq_none']
        constructor
        · intro hn i l hl
          cases i with
          | zero =>
            simp only [List.getElem?_cons_zero, Option.some.injEq] at hl
            subst hl
            exact h
          | succ m =>
            exact ihn.mp hn m l (by simpa using hl)
        · intro hall
          apply ihn.mpr
          intro i l hl
          exact hall (i + 1) l (by simpa using hl)

/-- C3 witness: on a concrete input the characterization yields the matching
line and the silence of every earlier line. -/
theorem find_index_first_match_witness :
    (∃ l, exSecondHit[1]? = some l ∧ lineHit [patAbs1] l = true) ∧
    ∀ j, j < 1 → ∀ l, exSecondHit[j]? = some l → lineHit [patAbs1] l = false :=
  ((find_index_first_match [patAbs1] exSecondHit).1 1).mp (by decide)

theorem dropPrefCI_lowerL : ∀ (P rest : Str),
    dropPrefCI (lowerL P) (P ++ rest) = some rest := by
  intro P
  induction P with
  | nil => intro rest; rfl
  | cons c cs ih =>
    intro rest
    simp only [lowerL, List.map_cons, List.cons_append, dropPrefCI, if_pos rfl]
    exact ih rest

theorem dropWhile_append_all (p : Char → Bool) :
    ∀ (S R : Str), S.all p = true → (S ++ R).dropWhile p = R.dropWhile p := by
  intro S
  induction S with
  | nil => intro R _; rfl
  | cons s S2 ih =>
    intro R hall
    rw [List.all_cons, Bool.and_eq_true] at hall
    rw [List.cons_append, List.dropWhile_cons_of_pos hall.1]
    exact ih R hall.2

theorem dropWhile_head_neg (p : Char → Bool) (R : Str)
    (h : R.head?.all (fun c => !p c) = true) : R.dropWhile p = R := by
  cases R with
  | nil => rfl
  | cons r R2 =>
    simp only [List.head?_cons, Option.all_some, Bool.not_eq_true'] at h
    exact List.dropWhile_cons_of_neg (by simp [h])

theorem takeWhile_all (p : Char → Bool) :
    ∀ (R : Str), R.all p = true → R.takeWhile p = R := by
  intro R
  induction R with
  | nil => intro _; rfl
  | cons r R2 ih =>
    intro hall
    rw [List.all_cons, Bool.and_eq_true] at hall
    rw [List.takeWhile_cons_of_pos hall.1, ih hall.2]

/-- The inline regex on a heading of the shape
`<abstract-word> <separator run> <remainder>`. -/
theorem inlineAbstract_structured (P S R : Str)
    (hP : lowerL P = toL "abstract") (hS : S ≠ [])
    (hSall : S.all isSepC = true)
    (hR : R.head?.all (fun c => !isSepC c) = true)
    (hRnl : R.all neNl = true) :
    inlineAbstract (P ++ (S ++ R)) = some R := by
  unfold inlineAbstract
  rw [← hP, dropPrefCI_lowerL]
  cases S with
  | nil => exact absurd rfl hS
  | cons s0 S2 =>
    rw [List.all_cons, Bool.and_eq_true] at hSall
    simp only [List.cons_append]
    show (if isSepC s0 then
        some (((s0 :: (S2 ++ R)).dropWhile isSepC).takeWhile neNl)
      else none) = some R
    rw [if_pos hSall.1, List.dropWhile_cons_of_pos hSall.1,
      dropWhile_append_all isSepC S2 R hSall.2, dropWhile_head_neg isSepC R hR,
      takeWhile_all neNl R hRnl]

/-- C2 (amended): the inline remainder becomes the first abstract line exactly
when the heading is the word `abstract` (case-insensitively) followed by a
nonempty run of whitespace/dash separators; then the abstract zone is the
trimmed remainder followed by the lines up to the computed abstract end.  For
any other detected heading — colon-separated `Abstract:` and the `Summary`
variants included — the inline regex fails and the abstract starts at the line
after the heading, dropping any trailing text. -/
theorem inline_abstract_first_line :
    (∀ (stripped : List Str) (a : Nat) (iIdx eIdx : Option Nat) (P S R : Str),
       stripped.getD a [] = P ++ (S ++ R) →
       lowerL P = toL "abstract" → S ≠ [] → S.all isSepC = true →
       R.head?.all (fun c => !isSepC c) = true → R.all neNl = true →
       (extract_sections stripped (some a) iIdx eIdx).abstract =
         pyStrip R :: sliceL stripped (a + 1) (absEndIdx stripped a iIdx)) ∧
    (∀ (stripped : List Str) (a : Nat) (iIdx eIdx : Option Nat),
       inlineAbstract (stripped.getD a []) = none →
       (extract_sections stripped (some a) iIdx eIdx).abstract =
         sliceL stripped (a + 1) (absEndIdx stripped a iIdx)) := by
  constructor
  · intro stripped a iIdx eIdx P S R hget hP hS hSall hR hRnl
    show (match inlineAbstract (stripped.getD a []) with
        | some tail => pyStrip tail :: sliceL stripped (a + 1) (absEndIdx stripped a iIdx)
        | none => sliceL stripped (a + 1) (absEndIdx stripped a iIdx)) =
      pyStrip R :: sliceL stripped (a + 1) (absEndIdx stripped a iIdx)
    rw [hget, inlineAbstract_structured P S R hP hS hSall hR hRnl]
  · intro stripped a iIdx eIdx h
    show (match inlineAbstract (stripped.getD a []) with
        | some tail => pyStrip tail :: sliceL stripped (a + 1) (absEndIdx stripped a iIdx)
        | none => sliceL stripped (a + 1) (absEndIdx stripped a iIdx)) =
      sliceL stripped (a + 1) (absEndIdx stripped a iIdx)
    rw [h]

/-- C2 counterexample: `Abstract: Overview text` is admitted as an abstract
heading by the detection patterns, yet its colon-separated trailing text does
not become the first abstract line — the zone starts at the next line and the
trailing text is dropped. -/
theorem inline_abstract_colon_cex :
    find_index abstractPats exColon = some 0 ∧
    (extract_sections exColon (some 0) none none).abstract = [toL "More text"] ∧
    (extract_sections exColon (some 0) none none).abstract.head? ≠
      some (toL "Overview text") := by
  decide

/-- C2 witness: a dash-separated heading puts the trimmed inline remainder
first. -/
theorem inline_abstract_witness :
    (extract_sections exInline (some 0) none none).abstract =
      [toL "Great results", toL "Body"] := by
  rw [inline_abstract_first_line.1 exInline 0 none none
    (toL "Abstract") (toL " — ") (toL "Great results")
    (by decide) (by decide) (by decide) (by decide) (by decide) (by decide)]
  decide

/-- The computed abstract end lies strictly after the abstract index and at or
before a later introduction index. -/
theorem absEnd_bounds (s : List Str) (va vi : Nat) (hai : va < vi)
    (hvan : va < s.length) :
    va < absEndIdx s va (some vi) ∧ absEndIdx s va (some vi) ≤ vi := by
  have hin : introAfterIdx (some vi) va = some vi := by
    show (if va < vi then some vi else none) = some vi
    rw [if_pos hai]
  cases hk : kwAfterIdx (find_index keywordsPats s) va with
  | none =>
    have he : absEndIdx s va (some vi) = min vi s.length := by
      simp [absEndIdx, hk, hin, numberedAfterIdx]
    rw [he]
    omega
  | some k =>
    have hva : va < k := by
      unfold kwAfterIdx at hk
      cases hf : find_index keywordsPats s with
      | none => rw [hf] at hk; cases hk
      | some k0 =>
        rw [hf] at hk
        change (if va < k0 then some k0 else none) = some k at hk
        by_cases hvk : va < k0
        · rw [if_pos hvk] at hk
          injection hk with h2
          subst h2
          exact hvk
        · rw [if_neg hvk] at hk; cases hk
    have he : absEndIdx s va (some vi) = min k (min vi s.length) := by
      simp [absEndIdx, hk, hin, numberedAfterIdx]
    rw [he]
    omega

/-- C1 (amended): with all three boundaries present in document order, the
zones are the expected slices, the abstract zone sits between the heading and
the introduction, the four zone ranges are pairwise disjoint — but their union
does not cover every line: exactly the abstract heading line, the end-matter
heading line, and the lines from the computed abstract end up to the
introduction heading belong to no zone. -/
theorem zones_cover_except_heading_lines (s : List Str) (va vi ve : Nat)
    (hai : va < vi) (hie : vi < ve) (hen : ve < s.length) :
    preOf s (some va) (some vi) = s.take va ∧
    bodyOf s (some va) (some vi) (some ve) = sliceL s vi ve ∧
    endOf s (some ve) = s.drop (ve + 1) ∧
    (absOf s (some va) (some vi) =
        sliceL s (va + 1) (absEndIdx s va (some vi)) ∨
      ∃ t, absOf s (some va) (some vi) =
        t :: sliceL s (va + 1) (absEndIdx s va (some vi))) ∧
    va < absEndIdx s va (some vi) ∧
    absEndIdx s va (some vi) ≤ vi ∧
    (∀ j : Nat,
      (j < va → ¬(va + 1 ≤ j ∧ j < absEndIdx s va (some vi)) ∧
        ¬(vi ≤ j ∧ j < ve) ∧ ¬(ve + 1 ≤ j)) ∧
      ((va + 1 ≤ j ∧ j < absEndIdx s va (some vi)) →
        ¬(vi ≤ j ∧ j < ve) ∧ ¬(ve + 1 ≤ j)) ∧
      ((vi ≤ j ∧ j < ve) → ¬(ve + 1 ≤ j))) ∧
    ∀ j : Nat, j < s.length →
      ((j < va ∨ (va + 1 ≤ j ∧ j < absEndIdx s va (some vi)) ∨
          (vi ≤ j ∧ j < ve) ∨ (ve + 1 ≤ j ∧ j < s.length)) ↔
        (j ≠ va ∧ j ≠ ve ∧ ¬(absEndIdx s va (some vi) ≤ j ∧ j < vi))) := by
  have hb := absEnd_bounds s va vi hai (by omega)
  refine ⟨?_, rfl, rfl, ?_, hb.1, hb.2, ?_, ?_⟩
  · show s.take (min va vi) = s.take va
    rw [Nat.min_eq_left hai.le]
  · cases h : inlineAbstract (s.getD va []) with
    | none =>
      left
      show (match inlineAbstract (s.getD va []) with
          | some tail => pyStrip tail :: sliceL s (va + 1) (absEndIdx s va (some vi))
          | none => sliceL s (va + 1) (absEndIdx s va (some vi))) = _
      rw [h]
    | some t =>
      right
      refine ⟨pyStrip t, ?_⟩
      show (match inlineAbstract (s.getD va []) with
          | some tail => pyStrip tail :: sliceL s (va + 1) (absEndIdx s va (some vi))
          | none => sliceL s (va + 1) (absEndIdx s va (some vi))) = _
      rw [h]
  · intro j
    omega
  · intro j hj
    omega

/-- C1 counterexample: on the specification's own seven-line scenario with the
boundaries the searches find, the boundary heading lines `Abstract` and
`References` belong to no zone: the four zones together hold only five of the
seven lines. -/
theorem zones_missing_heading_line_cex :
    find_index abstractPats exScenario = some 0 ∧
    find_index introPats exScenario = some 3 ∧
    find_index endPats exScenario = some 5 ∧
    extract_sections exScenario (some 0) (some 3) (some 5) =
      ⟨[], [toL "Line one", toL "Line two"],
        [toL "Introduction", toL "Body text"], [toL "Cite 1"]⟩ ∧
    exScenario.length = 7 ∧
    (extract_sections exScenario (some 0) (some 3) (some 5)).pre_intro.length +
      (extract_sections exScenario (some 0) (some 3) (some 5)).abstract.length +
      (extract_sections exScenario (some 0) (some 3) (some 5)).main_body.length +
      (extract_sections exScenario (some 0) (some 3) (some 5)).end_matter.length = 5 ∧
    toL "Abstract" ∈ exScenario ∧
    toL "Abstract" ∉ (extract_sections exScenario (some 0) (some 3) (some 5)).pre_intro ∧
    toL "Abstract" ∉ (extract_sections exScenario (some 0) (some 3) (some 5)).abstract ∧
    toL "Abstract" ∉ (extract_sections exScenario (some 0) (some 3) (some 5)).main_body ∧
    toL "Abstract" ∉ (extract_sections exScenario (some 0) (some 3) (some 5)).end_matter ∧
    toL "References" ∈ exScenario ∧
    toL "References" ∉ (extract_sections exScenario (some 0) (some 3) (some 5)).pre_intro ∧
    toL "References" ∉ (extract_sections exScenario (some 0) (some 3) (some 5)).abstract ∧
    toL "References" ∉ (extract_sections exScenario (some 0) (some 3) (some 5)).main_body ∧
    toL "References" ∉ (extract_sections exScenario (some 0) (some 3) (some 5)).end_matter := by
  decide

/-- C1 witness: the amended coverage statement instantiated on the scenario
document. -/
theorem zones_cover_witness :
    0 < absEndIdx exScenario 0 (some 3) ∧ absEndIdx exScenario 0 (some 3) ≤ 3 := by
  have h := zones_cover_except_heading_lines exScenario 0 3 5
    (by decide) (by decide) (by decide)
  exact ⟨h.2.2.2.2.1, h.2.2.2.2.2.1⟩

theorem yearFromVals_shape : ∀ (L : List Str) (v : Str), v ∈ yearFromVals L →
    ∃ y, v = toL "Detected Publication Year: " ++ y := by
  intro L
  induction L with
  | nil => intro v hv; cases hv
  | cons x xs ih =>
    intro v hv
    unfold yearFromVals at hv
    by_cases hx : x = []
    · rw [if_pos hx] at hv
      exact ih v hv
    · rw [if_neg hx] at hv
      cases hy : searchYear x with
      | some y =>
        rw [hy] at hv
        rw [List.mem_singleton] at hv
        exact ⟨y, hv⟩
      | none =>
        rw [hy] at hv
        exact ih v hv

theorem outletLines_shape (pre : List Str) (v : Str) (hv : v ∈ outletLines pre) :
    ∃ g, v = toL "Detected Publication Outlet: " ++ g := by
  unfold outletLines at hv
  cases h : outletSearch (joinNl pre) with
  | some g =>
    rw [h, List.mem_singleton] at hv
    exact ⟨pyStrip g, hv⟩
  | none =>
    rw [h] at hv
    cases hv

theorem arxivLines_shape (d : Document) (pre : List Str) (v : Str)
    (hv : v ∈ arxivLines d pre) :
    (∃ a, v = toL "Detected arXiv ID: " ++ a) ∨
    (∃ a, v = toL "Detected arXiv URL: https://arxiv.org/abs/" ++ a) ∨
    v = toL "No arXiv ID detected." := by
  unfold arxivLines at hv
  cases h : arxivSearch (idTextOf d pre) with
  | some a =>
    rw [h] at hv
    rcases List.mem_cons.mp hv with h1 | h2
    · exact Or.inl ⟨a, h1⟩
    · exact Or.inr (Or.inl ⟨a, List.mem_singleton.mp h2⟩)
  | none =>
    rw [h] at hv
    exact Or.inr (Or.inr (List.mem_singleton.mp hv))

theorem append_ne_of_pref (p q x y : Str) (hl : p.length = q.length)
    (hne : p ≠ q) : p ++ x ≠ q ++ y := by
  intro h
  exact hne (List.append_inj h hl).1

theorem doi_line_ne_year (x y : Str) :
    toL "Detected DOI: " ++ x ≠ toL "Detected Publication Year: " ++ y := by
  have e1 : toL "Detected DOI: " = toL "Detected D" ++ toL "OI: " := by decide
  have e2 : toL "Detected Publication Year: " =
      toL "Detected P" ++ toL "ublication Year: " := by decide
  rw [e1, e2, List.append_assoc, List.append_assoc]
  exact append_ne_of_pref _ _ _ _ (by decide) (by decide)

theorem doi_line_ne_outlet (x y : Str) :
    toL "Detected DOI: " ++ x ≠ toL "Detected Publication Outlet: " ++ y := by
  have e1 : toL "Detected DOI: " = toL "Detected D" ++ toL "OI: " := by decide
  have e2 : toL "Detected Publication Outlet: " =
      toL "Detected P" ++ toL "ublication Outlet: " := by decide
  rw [e1, e2, List.append_assoc, List.append_assoc]
  exact append_ne_of_pref _ _ _ _ (by decide) (by decide)

theorem doi_line_ne_arxiv_id (x y : Str) :
    toL "Detected DOI: " ++ x ≠ toL "Detected arXiv ID: " ++ y := by
  have e1 : toL "Detected DOI: " = toL "Detected D" ++ toL "OI: " := by decide
  have e2 : toL "Detected arXiv ID: " = toL "Detected a" ++ toL "rXiv ID: " := by
    decide
  rw [e1, e2, List.append_assoc, List.append_assoc]
  exact append_ne_of_pref _ _ _ _ (by decide) (by decide)

theorem doi_line_ne_arxiv_url (x y : Str) :
    toL "Detected DOI: " ++ x ≠
      toL "Detected arXiv URL: https://arxiv.org/abs/" ++ y := by
  have e1 : toL "Detected DOI: " = toL "Detected D" ++ toL "OI: " := by decide
  have e2 : toL "Detected arXiv URL: https://arxiv.org/abs/" =
      toL "Detected a" ++ toL "rXiv URL: https://arxiv.org/abs/" := by decide
  rw [e1, e2, List.append_assoc, List.append_assoc]
  exact append_ne_of_pref _ _ _ _ (by decide) (by decide)

theorem doi_line_ne_noarxiv (x : Str) :
    toL "Detected DOI: " ++ x ≠ toL "No arXiv ID detected." := by
  have e1 : toL "Detected DOI: " = toL "Detected D" ++ toL "OI: " := by decide
  have e2 : toL "No arXiv ID detected." =
      toL "No arXiv I" ++ toL "D detected." := by decide
  rw [e1, e2, List.append_assoc]
  exact append_ne_of_pref _ _ _ _ (by decide) (by decide)

theorem doi_line_ne_oa (x y : Str) :
    toL "Detected DOI: " ++ x ≠ toL "Detected Open Access: " ++ y := by
  have e1 : toL "Detected DOI: " = toL "Detected D" ++ toL "OI: " := by decide
  have e2 : toL "Detected Open Access: " =
      toL "Detected O" ++ toL "pen Access: " := by decide
  rw [e1, e2, List.append_assoc, List.append_assoc]
  exact append_ne_of_pref _ _ _ _ (by decide) (by decide)

/-- C4 (amended): when the DOI regex finds a (first) match in the safe zone —
`pre_intro`, first-page text and first-page links — the metadata block carries
both the DOI line and the resolver-URL line for that match; when the regex
finds no match in the safe zone (in particular when the DOI-shaped string sits
only beyond the first page, e.g. in end matter past page one), no DOI line is
emitted. -/
theorem doi_safe_zone_detection (d : Document) (ft : Str) (pre : List Str) :
    (∀ dm, doiSearch (idTextOf d pre) = some dm →
       toL "Detected DOI: " ++ dm ∈ metaLines d ft pre ∧
       toL "Detected DOI URL: https://doi.org/" ++ dm ∈ metaLines d ft pre) ∧
    (doiSearch (idTextOf d pre) = none →
       ∀ x, toL "Detected DOI: " ++ x ∉ metaLines d ft pre) := by
  constructor
  · intro dm h
    have hd : doiLines d pre =
        [toL "Detected DOI: " ++ dm,
         toL "Detected DOI URL: https://doi.org/" ++ dm] := by
      unfold doiLines
      rw [h]
    constructor
    · apply List.mem_append_left
      apply List.mem_append_left
      apply List.mem_append_right
      rw [hd]
      exact List.mem_cons_self _ _
    · apply List.mem_append_left
      apply List.mem_append_left
      apply List.mem_append_right
      rw [hd]
      exact List.mem_cons_of_mem _ (List.mem_singleton.mpr rfl)
  · intro h x hx
    have hd : doiLines d pre = [] := by
      unfold doiLines
      rw [h]
    unfold metaLines metaPre4 at hx
    rw [hd, List.append_nil] at hx
    rcases List.mem_append.mp hx with h1 | h2
    · rcases List.mem_append.mp h1 with h3 | h4
      · rcases List.mem_append.mp h3 with h5 | h6
        · obtain ⟨y, hy⟩ := yearFromVals_shape _ _ h5
          exact doi_line_ne_year x y hy
        · obtain ⟨g, hg⟩ := outletLines_shape _ _ h6
          exact doi_line_ne_outlet x g hg
      · rcases arxivLines_shape d pre _ h4 with ⟨a, ha⟩ | ⟨a, ha⟩ | ha
        · exact doi_line_ne_arxiv_id x a ha
        · exact doi_line_ne_arxiv_url x a ha
        · exact doi_line_ne_noarxiv x ha
    · have := List.mem_singleton.mp h2
      exact doi_line_ne_oa x _ this

/-- C4 counterexample: with the References heading and the DOI both on the
first page, the DOI string occurs only after the detected References heading
yet is still detected — the first-page text always belongs to the safe
zone. -/
theorem doi_after_references_cex :
    find_index endPats ((splitNl (joinNl refDoc.pages)).map pyStrip) = some 2 ∧
    containsSub (toL "10.1234")
      (joinNl (((splitNl (joinNl refDoc.pages)).map pyStrip).take 3)) = false ∧
    containsSub (toL "Detected DOI: 10.1234/abc.567")
      (processDocument refDoc).pre_intro = true := by
  decide

/-- C4 witness: a DOI on the first page is reported with both metadata
lines. -/
theorem doi_safe_zone_witness :
    toL "Detected DOI: 10.1234/abc.567" ∈ metaLines doiDoc [] [] := by
  have h := (doi_safe_zone_detection doiDoc [] []).1 (toL "10.1234/abc.567")
    (by decide)
  have e : toL "Detected DOI: " ++ toL "10.1234/abc.567" =
      toL "Detected DOI: 10.1234/abc.567" := by decide
  exact e ▸ h.1

/-- C10 witness: even the empty document keeps a non-empty `pre_intro`
section. -/
theorem pre_intro_section_nonempty_witness :
    (processDocument emptyDoc).pre_intro ≠ [] :=
  pre_intro_section_nonempty.2 emptyDoc

end Prism
